import Mathlib

/-!
Verification development for the `ctemp` build orchestrator
(`src/build/build.py`).  The Python source is shallowly embedded below:

* the directive parser `_parse_command_lines` (and its helpers
  `_add_unique`, the strict `//>`-marker lexer and the bare-line lexer)
  is modelled character-for-character over `List Char`;
* the module-config resolver `module_header_for_dir` /
  `module_config_for_dir` is modelled over an explicit `ModuleDir`
  record describing the headers, optional `.build` override file and
  `.c` sources a directory holds on disk;
* the breadth-first dependency expansion `expand_sections` is modelled
  as a well-founded recursion whose termination measure mirrors the
  "seen set is bounded by the directories on disk" argument;
* the staleness checks of `needs_rebuild` and `link_executable`, the
  source gathering of `section_sources` / `sources_for_project`, and
  the define-flag assembly of `main` are modelled over explicit
  timestamps (`Nat`) and string lists.

Fatal `SystemExit` errors of the Python code are modelled with
`Except BuildError`.
-/

deriving instance DecidableEq for Except

namespace Build

/-- Errors raised via `SystemExit` in `build.py`, as structured data.
Each constructor records the information interpolated into the
corresponding message string. -/
inductive BuildError where
  /-- `Invalid directive in {source}:{line_no}: expected 'command: params'` -/
  | invalidDirective (source : String) (lineNo : Nat)
  /-- `Invalid module name in {source}:{line_no}: '{token}'` -/
  | invalidModuleName (source : String) (lineNo : Nat) (token : String)
  /-- `Invalid define in {source}:{line_no}: use NAME or NAME=VALUE` -/
  | invalidDefine (source : String) (lineNo : Nat)
  /-- `Unknown directive in {source}:{line_no}: '{command}'` followed by the
  table of known commands (the `NAME` column rows of the table). -/
  | unknownDirective (source : String) (lineNo : Nat) (command : String)
      (known : List String)
  /-- `Missing module header in {directory}: expected {expected}` -/
  | missingModuleHeader (directory : String) (expected : String)
  /-- `Invalid module header in {directory}: expected {expected}; found {found}` -/
  | invalidModuleHeader (directory : String) (expected : String)
      (found : List String)
  /-- `Missing section directory: {directory}` -/
  | missingSectionDirectory (directory : String)
deriving DecidableEq, Repr

/-- Python whitespace for `str.strip` / `str.split` / `\s` (ASCII part). -/
def pyIsSpace (c : Char) : Bool :=
  c = ' ' || c = '\t' || c = '\n' || c = '\r' || c = '\x0b' || c = '\x0c'

/-- A `\w` regex character (ASCII part): letters, digits, underscore. -/
def isWordChar (c : Char) : Bool :=
  c.isAlphanum || c = '_'

/-- Worker for `pySplit`: `cur` is the (reversed) token being read. -/
def pySplitGo (cur : List Char) : List Char → List String
  | [] => if cur = [] then [] else [String.mk cur.reverse]
  | c :: rest =>
    if pyIsSpace c then
      if cur = [] then pySplitGo [] rest
      else String.mk cur.reverse :: pySplitGo [] rest
    else pySplitGo (c :: cur) rest

/-- Python `str.split()` with no argument: split on whitespace runs,
dropping empty tokens. -/
def pySplit (s : String) : List String :=
  pySplitGo [] s.toList

/-- Python `str.strip()`. -/
def pyStrip (cs : List Char) : List Char :=
  ((cs.dropWhile pyIsSpace).reverse.dropWhile pyIsSpace).reverse

/-- `_add_unique(items, value)`: append `value` unless already present. -/
def addUnique (items : List String) (value : String) : List String :=
  if value ∈ items then items else items ++ [value]

/-- ASCII lowercasing of one character, as Python `str.lower` does for
the ASCII range. -/
def lowerChar (c : Char) : Char :=
  if 'A' ≤ c ∧ c ≤ 'Z' then Char.ofNat (c.toNat + 32) else c

/-- Python `str.lower()` (ASCII part), used on the matched command. -/
def pyLower (s : String) : String :=
  String.mk (s.toList.map lowerChar)

/-- The `NAME` column of the known-commands table printed by the
unknown-directive error branch of `_parse_command_lines`: the `use`
row and the `def` row. -/
def knownCommands : List String :=
  ["use", "def"]

/-- The `use` branch of `_parse_command_lines`: each token must not
contain `=`; valid tokens are added to `sections` with `_add_unique`. -/
def handleUseTokens (source : String) (lineNo : Nat) :
    List String → List String → Except BuildError (List String)
  | [], sections => .ok sections
  | t :: rest, sections =>
    if t.toList.contains '=' then
      .error (.invalidModuleName source lineNo t)
    else
      handleUseTokens source lineNo rest (addUnique sections t)

/-- The reject condition of the `def` branch:
`token == "=" or token.startswith("=") or token.endswith("=")`. -/
def invalidDefineToken (t : String) : Bool :=
  t = "=" || t.toList.head? = some '=' || t.toList.getLast? = some '='

/-- The `def` branch of `_parse_command_lines`: tokens must be `NAME`
or `NAME=VALUE`; valid tokens are added to `defines` with
`_add_unique`. -/
def handleDefTokens (source : String) (lineNo : Nat) :
    List String → List String → Except BuildError (List String)
  | [], defines => .ok defines
  | t :: rest, defines =>
    if invalidDefineToken t then
      .error (.invalidDefine source lineNo)
    else
      handleDefTokens source lineNo rest (addUnique defines t)

/-- Dispatch on a matched `command: params` pair, as in the body of the
loop of `_parse_command_lines`: lowercase the command, split the
params, and run the `use` branch, the `def` branch, or the fatal
unknown-directive branch (which surfaces the known-commands table). -/
def handleCommand (source : String) (lineNo : Nat) (command params : String)
    (sections defines : List String) :
    Except BuildError (List String × List String) :=
  let cmd := pyLower command
  let tokens := pySplit params
  if cmd = "use" then
    match handleUseTokens source lineNo tokens sections with
    | .error e => .error e
    | .ok s => .ok (s, defines)
  else if cmd = "def" then
    match handleDefTokens source lineNo tokens defines with
    | .error e => .error e
    | .ok d => .ok (sections, d)
  else
    .error (.unknownDirective source lineNo cmd knownCommands)

/-- Result of lexing one input line. -/
inductive LexResult where
  /-- Line is ignored (no marker in strict mode; blank or `#` comment in
  bare mode). -/
  | skip
  /-- Bare mode only: non-blank line that does not match
  `command: params` (fatal). -/
  | invalid
  /-- A matched directive line with its command and params texts. -/
  | directive (command params : String)
deriving DecidableEq, Repr

/-- The regex fragment `(\w+)\s*:\s*(.*)$` applied at the start of
`cs`: a nonempty word, optional whitespace, a colon, optional
whitespace, then the params are the rest of the line. -/
def matchCommandParams (cs : List Char) : Option (String × String) :=
  let word := cs.takeWhile isWordChar
  let rest := cs.dropWhile isWordChar
  if word = [] then none
  else
    match rest.dropWhile pyIsSpace with
    | ':' :: rest2 => some (String.mk word, String.mk (rest2.dropWhile pyIsSpace))
    | _ => none

/-- Strict mode lexing: the regex `\s*//>\s*(\w+)\s*:\s*(.*)$`; lines
that do not match are skipped. -/
def lexStrictLine (line : String) : LexResult :=
  match (line.toList.dropWhile pyIsSpace) with
  | '/' :: '/' :: '>' :: rest =>
    match matchCommandParams (rest.dropWhile pyIsSpace) with
    | some (c, p) => .directive c p
    | none => .skip
  | _ => .skip

/-- Bare mode lexing: strip the line; skip blank lines and `#`
comments; tolerate and strip a leading `//>`; then the line must match
`(\w+)\s*:\s*(.*)$` or it is a fatal invalid directive. -/
def lexBareLine (line : String) : LexResult :=
  let stripped := pyStrip line.toList
  if stripped = [] then .skip
  else if stripped.head? = some '#' then .skip
  else
    let body :=
      match stripped with
      | '/' :: '/' :: '>' :: rest => rest.dropWhile pyIsSpace
      | other => other
    match matchCommandParams body with
    | some (c, p) => .directive c p
    | none => .invalid

/-- Lex one line in the mode selected by `require_prefix` (modelled
here as the `strict` flag). -/
def lexLine (strict : Bool) (line : String) : LexResult :=
  if strict then lexStrictLine line else lexBareLine line

/-- The loop of `_parse_command_lines` over the remaining lines,
carrying the 1-based line number and the accumulated section and
define lists. -/
def parseLinesAux (source : String) (strict : Bool) :
    List String → Nat → List String → List String →
    Except BuildError (List String × List String)
  | [], _, sections, defines => .ok (sections, defines)
  | line :: rest, lineNo, sections, defines =>
    match lexLine strict line with
    | .skip => parseLinesAux source strict rest (lineNo + 1) sections defines
    | .invalid => .error (.invalidDirective source lineNo)
    | .directive cmd params =>
      match handleCommand source lineNo cmd params sections defines with
      | .error e => .error e
      | .ok (s, d) => parseLinesAux source strict rest (lineNo + 1) s d

/-- `_parse_command_lines(lines, source, require_prefix)`: returns the
ordered deduplicated `(sections, defines)` pair or the first fatal
parse error. -/
def parseCommandLines (lines : List String) (source : String) (strict : Bool) :
    Except BuildError (List String × List String) :=
  parseLinesAux source strict lines 1 [] []

/-- What a directory under `src/` holds on disk, as far as `build.py`
looks at it: its base name (`directory.name`), the `*.h` files directly
inside it with their text lines (in the sorted order `glob` + `sorted`
produce), the optional `.build` override file's lines, and the `*.c`
files found by `rglob` (already in sorted order). -/
structure ModuleDir where
  name : String
  headers : List (String × List String)
  buildFile : Option (List String)
  csources : List String
deriving DecidableEq, Repr

/-- `module_header_for_dir(directory)`: `SRC_DIR` itself is exempt and
yields no header; otherwise the canonical `<name>.h` must exist; with
no headers at all the error is `missingModuleHeader`, and with other
headers but no canonical one it is `invalidModuleHeader` naming every
header found. The `isSrcDir` flag models the `directory == SRC_DIR`
comparison. -/
def module_header_for_dir (isSrcDir : Bool) (d : ModuleDir) :
    Except BuildError (Option (String × List String)) :=
  if isSrcDir then .ok none
  else
    let expected := d.name ++ ".h"
    match d.headers.find? (fun h => h.1 == expected) with
    | some h => .ok (some h)
    | none =>
      if d.headers = [] then .error (.missingModuleHeader d.name expected)
      else .error (.invalidModuleHeader d.name expected (d.headers.map Prod.fst))

/-- The two `for` merge loops of `module_config_for_dir`: append each
element of `extra` to `base` unless already present. -/
def mergeUnique (base extra : List String) : List String :=
  extra.foldl (fun acc v => if v ∈ acc then acc else acc ++ [v]) base

/-- The `.build` half of `module_config_for_dir`: given the header's
`(sections, defines)`, parse the override file (bare mode) when
present and merge its directives with first-seen-order deduplication. -/
def withBuild (d : ModuleDir) (sections defines : List String) :
    Except BuildError (List String × List String) :=
  match d.buildFile with
  | none => .ok (sections, defines)
  | some blines =>
    match parseCommandLines blines (d.name ++ "/.build") false with
    | .error e => .error e
    | .ok (bs, bd) => .ok (mergeUnique sections bs, mergeUnique defines bd)

/-- `module_config_for_dir(directory)`: locate the canonical header,
parse it in strict mode, then merge the `.build` override file. -/
def module_config_for_dir (isSrcDir : Bool) (d : ModuleDir) :
    Except BuildError (List String × List String) :=
  match module_header_for_dir isSrcDir d with
  | .error e => .error e
  | .ok none => withBuild d [] []
  | .ok (some (hname, hlines)) =>
    match parseCommandLines hlines hname true with
    | .error e => .error e
    | .ok (hs, hd) => withBuild d hs hd

/-- The source tree under `src/`: the module directories, keyed by
their names. -/
abbrev SourceTree := List (String × ModuleDir)

/-- The directory `SRC_DIR / s`: the named entry of the tree if
present; a name with no directory behaves like an empty directory
(`glob` of a nonexistent path yields nothing), which
`module_header_for_dir` then rejects. -/
def dirFor (tree : SourceTree) (s : String) : ModuleDir :=
  match tree.find? (fun e => e.1 == s) with
  | some e => e.2
  | none => { name := s, headers := [], buildFile := none, csources := [] }

/-- The `module_config_for_dir(SRC_DIR / section)` call made by
`expand_sections`, keeping only the dependency list. A section name is
a nonempty token, so the directory is never `SRC_DIR` itself. -/
def moduleDeps (tree : SourceTree) (s : String) : Except BuildError (List String) :=
  match module_config_for_dir false (dirFor tree s) with
  | .error e => .error e
  | .ok (sections, _) => .ok sections

/-- The dependency list a directory contributes when its config
resolves, `[]` otherwise; used only to bound the traversal. -/
def okDeps (d : ModuleDir) : List String :=
  match module_config_for_dir false d with
  | .ok p => p.1
  | .error _ => []

/-- Every module name any directory of the tree can ever ask to
enqueue.  This is the "bounded by the directories on disk" part of the
termination argument for `expand_sections`. -/
def depUniverse (tree : SourceTree) : Finset String :=
  (tree.flatMap (fun e => okDeps e.2)).toFinset

/-- The inner `for dep in deps` loop of `expand_sections`: each
dependency not yet seen is marked seen and appended to both the output
order and the queue. Returns `(pending, ordered, seen)`. -/
def expandStep : List String → List String → List String → List String →
    List String × List String × List String
  | [], pending, ordered, seen => (pending, ordered, seen)
  | d :: rest, pending, ordered, seen =>
    if d ∈ seen then expandStep rest pending ordered seen
    else expandStep rest (pending ++ [d]) (ordered ++ [d]) (seen ++ [d])

theorem expandStep_measure (U : Finset String) :
    ∀ deps pending ordered seen, (∀ d ∈ deps, d ∈ U) →
      (U \ (expandStep deps pending ordered seen).2.2.toFinset).card
          + (expandStep deps pending ordered seen).1.length
        ≤ (U \ seen.toFinset).card + pending.length := by
  intro deps
  induction deps with
  | nil => intro pending ordered seen _; simp [expandStep]
  | cons d rest ih =>
    intro pending ordered seen hsub
    by_cases hd : d ∈ seen
    · rw [expandStep, if_pos hd]
      exact ih pending ordered seen (fun x hx => hsub x (List.mem_cons_of_mem _ hx))
    · rw [expandStep, if_neg hd]
      have hdU : d ∈ U := hsub d (List.mem_cons_self d rest)
      have step := ih (pending ++ [d]) (ordered ++ [d]) (seen ++ [d])
        (fun x hx => hsub x (List.mem_cons_of_mem _ hx))
      have hset : (seen ++ [d]).toFinset = insert d seen.toFinset := by
        ext x
        simp [or_comm]
      have hdiff : U \ insert d seen.toFinset = (U \ seen.toFinset).erase d := by
        ext x
        simp only [Finset.mem_sdiff, Finset.mem_insert, Finset.mem_erase]
        tauto
      have hmem : d ∈ U \ seen.toFinset := by
        rw [Finset.mem_sdiff, List.mem_toFinset]
        exact ⟨hdU, hd⟩
      have hcard : (U \ (seen ++ [d]).toFinset).card + 1 = (U \ seen.toFinset).card := by
        rw [hset, hdiff]
        exact Finset.card_erase_add_one hmem
      have hlen : (pending ++ [d]).length = pending.length + 1 := by
        simp
      omega

/-- For a nonexistent (or otherwise empty, overrideless) directory,
config resolution fails with the missing-header error. -/
theorem module_config_empty (name : String) (cs : List String) :
    module_config_for_dir false ⟨name, [], none, cs⟩ =
      .error (.missingModuleHeader name (name ++ ".h")) := by
  rfl

/-- Dependencies handed out by `moduleDeps` always lie in the
universe of the tree. -/
theorem moduleDeps_sub_univ (tree : SourceTree) (s : String)
    (deps : List String) (h : moduleDeps tree s = .ok deps) :
    ∀ d ∈ deps, d ∈ depUniverse tree := by
  intro d hd
  unfold moduleDeps at h
  unfold dirFor at h
  cases hfind : tree.find? (fun e => e.1 == s) with
  | none =>
    rw [hfind] at h
    rw [module_config_empty] at h
    exact absurd h (by simp)
  | some e =>
    rw [hfind] at h
    have he : e ∈ tree := List.mem_of_find?_eq_some hfind
    cases hcfg : module_config_for_dir false e.2 with
    | error err => rw [hcfg] at h; exact absurd h (by simp)
    | ok p =>
      rw [hcfg] at h
      have hdeps : deps = p.1 := by
        cases p; simpa using h.symm
      have hok : okDeps e.2 = deps := by
        unfold okDeps; rw [hcfg, hdeps]
      unfold depUniverse
      rw [List.mem_toFinset, List.mem_flatMap]
      exact ⟨e, he, by rw [hok]; exact hd⟩

theorem expand_measure_lt (tree : SourceTree) (deps : List String)
    (s : String) (pending ordered seen : List String)
    (hsub : ∀ d ∈ deps, d ∈ depUniverse tree) :
    (depUniverse tree \ (expandStep deps pending ordered seen).2.2.toFinset).card
        + (expandStep deps pending ordered seen).1.length
      < (depUniverse tree \ seen.toFinset).card + (s :: pending).length := by
  have h := expandStep_measure (depUniverse tree) deps pending ordered seen hsub
  simp only [List.length_cons]
  omega

/-- The `while pending` loop of `expand_sections`, with the queue, the
output order and the seen set as explicit state.  Termination: each
iteration pops one queue entry, and every entry it pushes removes a
fresh name from the finite `depUniverse`. -/
def expandAux (tree : SourceTree) :
    List String → List String → List String → Except BuildError (List String)
  | [], ordered, _seen => .ok ordered
  | s :: pending, ordered, seen =>
    match h : moduleDeps tree s with
    | .error e => .error e
    | .ok deps =>
      expandAux tree (expandStep deps pending ordered seen).1
        (expandStep deps pending ordered seen).2.1
        (expandStep deps pending ordered seen).2.2
termination_by pending _ seen => (depUniverse tree \ seen.toFinset).card + pending.length
decreasing_by
  exact expand_measure_lt tree deps s pending ordered seen
    (moduleDeps_sub_univ tree s deps h)

/-- `expand_sections(sections)`: breadth-first closure of the direct
module list, with the order, the queue and the seen set all seeded with
the direct list. -/
def expand_sections (tree : SourceTree) (sections : List String) :
    Except BuildError (List String) :=
  expandAux tree sections sections sections

theorem expandAux_nil (tree : SourceTree) (ordered seen : List String) :
    expandAux tree [] ordered seen = .ok ordered := by
  rw [expandAux.eq_def]

theorem expandAux_cons_err (tree : SourceTree) {s : String} {e : BuildError}
    (pending ordered seen : List String) (h : moduleDeps tree s = .error e) :
    expandAux tree (s :: pending) ordered seen = .error e := by
  rw [expandAux.eq_def]
  split
  · rename_i heq
    exact absurd heq (by simp)
  · rename_i heq
    injection heq with h1 h2
    subst h1; subst h2
    split
    · rename_i e' heq2
      rw [h] at heq2
      injection heq2 with h3
      rw [h3]
    · rename_i deps' heq2
      rw [h] at heq2
      exact absurd heq2 (by simp)

theorem expandAux_cons_ok (tree : SourceTree) {s : String} {deps : List String}
    (pending ordered seen : List String) (h : moduleDeps tree s = .ok deps) :
    expandAux tree (s :: pending) ordered seen =
      expandAux tree (expandStep deps pending ordered seen).1
        (expandStep deps pending ordered seen).2.1
        (expandStep deps pending ordered seen).2.2 := by
  rw [expandAux.eq_def]
  split
  · rename_i heq
    exact absurd heq (by simp)
  · rename_i heq
    injection heq with h1 h2
    subst h1; subst h2
    split
    · rename_i e' heq2
      rw [h] at heq2
      exact absurd heq2 (by simp)
    · rename_i deps' heq2
      rw [h] at heq2
      injection heq2 with h3
      rw [h3]

/-- One dependency edge of the module graph: directory `a` resolves
and lists `b` among its dependencies. -/
def DepStep (tree : SourceTree) (a b : String) : Prop :=
  ∃ ds, moduleDeps tree a = .ok ds ∧ b ∈ ds

/-- `x` is transitively reachable from the direct module list
`roots`. -/
def Reaches (tree : SourceTree) (roots : List String) (x : String) : Prop :=
  ∃ r ∈ roots, Relation.ReflTransGen (DepStep tree) r x

/-- Characterisation of the inner enqueue loop: it appends one common
suffix `new` — the not-yet-seen dependencies in first-occurrence
order — to the queue, the output order and the seen set alike. -/
theorem expandStep_spec :
    ∀ deps pending ordered seen, ∃ new : List String,
      expandStep deps pending ordered seen =
          (pending ++ new, ordered ++ new, seen ++ new) ∧
        new.Nodup ∧
        (∀ x ∈ new, x ∈ deps ∧ x ∉ seen) ∧
        (∀ d ∈ deps, d ∈ seen ∨ d ∈ new) := by
  intro deps
  induction deps with
  | nil =>
    intro pending ordered seen
    exact ⟨[], by simp [expandStep], List.nodup_nil, by simp, by simp⟩
  | cons d rest ih =>
    intro pending ordered seen
    by_cases hd : d ∈ seen
    · obtain ⟨new, hst, hnd, hfresh, hcover⟩ := ih pending ordered seen
      refine ⟨new, ?_, hnd, ?_, ?_⟩
      · rw [expandStep, if_pos hd]; exact hst
      · intro x hx
        exact ⟨List.mem_cons_of_mem d (hfresh x hx).1, (hfresh x hx).2⟩
      · intro d' hd'
        rcases List.mem_cons.mp hd' with h | h
        · subst h; exact Or.inl hd
        · exact hcover d' h
    · obtain ⟨new, hst, hnd, hfresh, hcover⟩ := ih (pending ++ [d]) (ordered ++ [d]) (seen ++ [d])
      have hdnew : d ∉ new := by
        intro hmem
        exact (hfresh d hmem).2 (by simp)
      refine ⟨d :: new, ?_, ?_, ?_, ?_⟩
      · rw [expandStep, if_neg hd, hst]
        simp
      · exact List.nodup_cons.mpr ⟨hdnew, hnd⟩
      · intro x hx
        rcases List.mem_cons.mp hx with h | h
        · subst h; exact ⟨by simp, hd⟩
        · refine ⟨List.mem_cons_of_mem d (hfresh x h).1, ?_⟩
          intro hxseen
          exact (hfresh x h).2 (by simp [hxseen])
      · intro d' hd'
        rcases List.mem_cons.mp hd' with h | h
        · subst h; exact Or.inr (List.mem_cons_self d' new)
        · rcases hcover d' h with hseen | hnew
          · rcases List.mem_append.mp hseen with h2 | h2
            · exact Or.inl h2
            · simp only [List.mem_singleton] at h2
              subst h2; exact Or.inr (List.mem_cons_self d' new)
          · exact Or.inr (List.mem_cons_of_mem d hnew)

/-- Invariant-carrying induction over the `while pending` loop: from a
state whose order list is duplicate-free, closed for every processed
entry, and reachable from `roots`, a successful run returns a
duplicate-free list containing `roots`, closed under resolved
dependencies, and wholly reachable from `roots`. -/
theorem expandAux_invariant (tree : SourceTree) (roots : List String) :
    ∀ n pending ordered seen result,
      (depUniverse tree \ seen.toFinset).card + pending.length ≤ n →
      (∀ y, y ∈ seen ↔ y ∈ ordered) →
      ordered.Nodup →
      (∀ x ∈ pending, x ∈ ordered) →
      (∀ x ∈ roots, x ∈ ordered) →
      (∀ x, x ∈ ordered → x ∉ pending →
        ∀ ds, moduleDeps tree x = .ok ds → ∀ d ∈ ds, d ∈ ordered) →
      (∀ x ∈ ordered, Reaches tree roots x) →
      expandAux tree pending ordered seen = .ok result →
      result.Nodup ∧ (∀ x ∈ roots, x ∈ result) ∧
        (∀ x ∈ result, ∀ ds, moduleDeps tree x = .ok ds → ∀ d ∈ ds, d ∈ result) ∧
        (∀ x ∈ result, Reaches tree roots x) := by
  intro n
  induction n with
  | zero =>
    intro pending ordered seen result hm h1 h2 h3 h4 h5 h6 heq
    cases pending with
    | nil =>
      rw [expandAux_nil] at heq
      injection heq with hres
      subst hres
      exact ⟨h2, h4, fun x hx ds hds d hd => h5 x hx (by simp) ds hds d hd, h6⟩
    | cons s rest => simp at hm
  | succ n ih =>
    intro pending ordered seen result hm h1 h2 h3 h4 h5 h6 heq
    cases pending with
    | nil =>
      rw [expandAux_nil] at heq
      injection heq with hres
      subst hres
      exact ⟨h2, h4, fun x hx ds hds d hd => h5 x hx (by simp) ds hds d hd, h6⟩
    | cons s rest =>
      cases hdep : moduleDeps tree s with
      | error e =>
        rw [expandAux_cons_err tree rest ordered seen hdep] at heq
        exact absurd heq (by simp)
      | ok deps =>
        rw [expandAux_cons_ok tree rest ordered seen hdep] at heq
        obtain ⟨new, hspec, hndnew, hfresh, hcover⟩ := expandStep_spec deps rest ordered seen
        have hsub := moduleDeps_sub_univ tree s deps hdep
        have hlt := expand_measure_lt tree deps s rest ordered seen hsub
        rw [hspec] at heq hlt
        simp only [List.length_cons, List.length_append] at hlt hm
        have hsord : s ∈ ordered := h3 s (by simp)
        have hnewNotOrd : ∀ x ∈ new, x ∉ ordered := by
          intro x hx hxo
          exact (hfresh x hx).2 ((h1 x).mpr hxo)
        refine ih (rest ++ new) (ordered ++ new) (seen ++ new) result ?_ ?_ ?_ ?_ ?_ ?_ ?_ heq
        · simp only [List.length_append]
          omega
        · intro y
          simp only [List.mem_append]
          exact or_congr_left (h1 y)
        · rw [List.nodup_append]
          refine ⟨h2, hndnew, ?_⟩
          intro x hx hy
          exact hnewNotOrd x hy hx
        · intro x hx
          rcases List.mem_append.mp hx with h | h
          · exact List.mem_append.mpr (Or.inl (h3 x (List.mem_cons_of_mem s h)))
          · exact List.mem_append.mpr (Or.inr h)
        · intro x hx
          exact List.mem_append.mpr (Or.inl (h4 x hx))
        · intro x hxo hxp ds hds d hd
          rcases List.mem_append.mp hxo with hxord | hxnew
          · by_cases hxs : x = s
            · subst hxs
              have hdsdeps : ds = deps := by
                rw [hdep] at hds
                exact (Except.ok.inj hds).symm
              subst hdsdeps
              rcases hcover d hd with hdseen | hdnew
              · exact List.mem_append.mpr (Or.inl ((h1 d).mp hdseen))
              · exact List.mem_append.mpr (Or.inr hdnew)
            · have hxrest : x ∉ rest := by
                intro hxr
                exact hxp (List.mem_append.mpr (Or.inl hxr))
              have hxpend : x ∉ s :: rest := by
                simp [hxs, hxrest]
              exact List.mem_append.mpr
                (Or.inl (h5 x hxord hxpend ds hds d hd))
          · exact absurd (List.mem_append.mpr (Or.inr hxnew)) hxp
        · intro x hx
          rcases List.mem_append.mp hx with h | h
          · exact h6 x h
          · obtain ⟨r, hr, path⟩ := h6 s hsord
            exact ⟨r, hr, path.tail ⟨deps, hdep, (hfresh x h).1⟩⟩

/-- Module directory `A` of the two-module cycle scenario: its header
declares `use B`. -/
def dirA : ModuleDir :=
  { name := "A", headers := [("A.h", ["//> use: B"])], buildFile := none,
    csources := ["A/a.c"] }

/-- Module directory `B` of the two-module cycle scenario: its header
declares `use A`. -/
def dirB : ModuleDir :=
  { name := "B", headers := [("B.h", ["//> use: A"])], buildFile := none,
    csources := ["B/b.c"] }

/-- A source tree whose module graph is the two-module cycle
`A -> B -> A`. -/
def cycleTree : SourceTree := [("A", dirA), ("B", dirB)]

theorem expand_cycle : expand_sections cycleTree ["A"] = .ok ["A", "B"] := by
  have h1 : moduleDeps cycleTree "A" = .ok ["B"] := by decide
  have h2 : moduleDeps cycleTree "B" = .ok ["A"] := by decide
  have s1 : expandStep ["B"] [] ["A"] ["A"] = (["B"], ["A", "B"], ["A", "B"]) := by decide
  have s2 : expandStep ["A"] [] ["A", "B"] ["A", "B"] = ([], ["A", "B"], ["A", "B"]) := by decide
  calc expand_sections cycleTree ["A"]
      = expandAux cycleTree ["A"] ["A"] ["A"] := rfl
    _ = expandAux cycleTree (expandStep ["B"] [] ["A"] ["A"]).1
          (expandStep ["B"] [] ["A"] ["A"]).2.1 (expandStep ["B"] [] ["A"] ["A"]).2.2 :=
        expandAux_cons_ok cycleTree [] ["A"] ["A"] h1
    _ = expandAux cycleTree ["B"] ["A", "B"] ["A", "B"] := by rw [s1]
    _ = expandAux cycleTree (expandStep ["A"] [] ["A", "B"] ["A", "B"]).1
          (expandStep ["A"] [] ["A", "B"] ["A", "B"]).2.1
          (expandStep ["A"] [] ["A", "B"] ["A", "B"]).2.2 :=
        expandAux_cons_ok cycleTree [] ["A", "B"] ["A", "B"] h2
    _ = expandAux cycleTree [] ["A", "B"] ["A", "B"] := by rw [s2]
    _ = .ok ["A", "B"] := expandAux_nil cycleTree ["A", "B"] ["A", "B"]

/-- A module name with no directory in the tree resolves to the
missing-header error (globbing a nonexistent directory finds no
headers). -/
theorem moduleDeps_missing (tree : SourceTree) (s : String)
    (h : tree.find? (fun e => e.1 == s) = none) :
    moduleDeps tree s = .error (.missingModuleHeader s (s ++ ".h")) := by
  unfold moduleDeps dirFor
  rw [h, module_config_empty]

/-- While some queued module has no directory on disk, the expansion
loop cannot finish successfully: it aborts with a fatal error. -/
theorem expandAux_missing (tree : SourceTree) :
    ∀ n pending ordered seen m,
      (depUniverse tree \ seen.toFinset).card + pending.length ≤ n →
      m ∈ pending → tree.find? (fun e => e.1 == m) = none →
      ∃ e, expandAux tree pending ordered seen = .error e := by
  intro n
  induction n with
  | zero =>
    intro pending ordered seen m hm hmem _
    cases pending with
    | nil => exact absurd hmem (by simp)
    | cons s rest => simp at hm
  | succ n ih =>
    intro pending ordered seen m hm hmem hfind
    cases pending with
    | nil => exact absurd hmem (by simp)
    | cons s rest =>
      cases hdep : moduleDeps tree s with
      | error e => exact ⟨e, expandAux_cons_err tree rest ordered seen hdep⟩
      | ok deps =>
        have hms : m ≠ s := by
          intro heq
          subst heq
          rw [moduleDeps_missing tree m hfind] at hdep
          exact absurd hdep (by simp)
        have hmrest : m ∈ rest := by
          rcases List.mem_cons.mp hmem with h | h
          · exact absurd h hms
          · exact h
        rw [expandAux_cons_ok tree rest ordered seen hdep]
        obtain ⟨new, hspec, _, _, _⟩ := expandStep_spec deps rest ordered seen
        have hsub := moduleDeps_sub_univ tree s deps hdep
        have hlt := expand_measure_lt tree deps s rest ordered seen hsub
        rw [hspec] at hlt ⊢
        simp only [List.length_cons, List.length_append] at hlt hm
        refine ih (rest ++ new) (ordered ++ new) (seen ++ new) m ?_ ?_ hfind
        · simp only [List.length_append]
          omega
        · exact List.mem_append.mpr (Or.inl hmrest)

/-- Strict comparison against a left fold of `Nat.max`. -/
theorem lt_foldl_max :
    ∀ (l : List Nat) (a e : Nat),
      (e < l.foldl Nat.max a ↔ e < a ∨ ∃ o ∈ l, e < o) := by
  intro l
  induction l with
  | nil => intro a e; simp
  | cons x xs ih =>
    intro a e
    rw [List.foldl_cons, ih]
    constructor
    · rintro (h | ⟨o, ho, hlt⟩)
      · rcases lt_max_iff.mp h with h1 | h1
        · exact Or.inl h1
        · exact Or.inr ⟨x, by simp, h1⟩
      · exact Or.inr ⟨o, by simp [ho], hlt⟩
    · rintro (h | ⟨o, ho, hlt⟩)
      · exact Or.inl (lt_max_iff.mpr (Or.inl h))
      · rcases List.mem_cons.mp ho with h1 | h1
        · subst h1; exact Or.inl (lt_max_iff.mpr (Or.inr hlt))
        · exact Or.inr ⟨o, h1, hlt⟩

/-- `section_sources(section)`: the sorted recursive `*.c` listing of
an existing section directory, or the fatal missing-directory error. -/
def section_sources (tree : SourceTree) (s : String) :
    Except BuildError (List String) :=
  match tree.find? (fun e => e.1 == s) with
  | none => .error (.missingSectionDirectory s)
  | some e => .ok e.2.csources

/-- `unique(seq)`: drop duplicates keeping the first occurrence. -/
def unique (seq : List String) : List String :=
  seq.foldl addUnique []

/-- The `for section in sections: sources.extend(section_sources(section))`
loop of `sources_for_project`. -/
def gatherSources (tree : SourceTree) :
    List String → List String → Except BuildError (List String)
  | [], acc => .ok acc
  | s :: rest, acc =>
    match section_sources tree s with
    | .error e => .error e
    | .ok srcs => gatherSources tree rest (acc ++ srcs)

/-- `sources_for_project(project)`: parse the root unit's directives in
strict mode, expand the module graph, list every expanded section's
sources after the root unit, and deduplicate.  The root file
`src/{project}.c` is modelled by its text `rootLines` (the existence
check on it is outside this model). -/
def sources_for_project (tree : SourceTree) (project : String)
    (rootLines : List String) :
    Except BuildError (List String × List String) :=
  match parseCommandLines rootLines (project ++ ".c") true with
  | .error e => .error e
  | .ok (sections, defines) =>
    match expand_sections tree sections with
    | .error e => .error e
    | .ok expanded =>
      match gatherSources tree expanded [project ++ ".c"] with
      | .error e => .error e
      | .ok sources => .ok (unique sources, defines)

/-- The planning loop of `main`: `sources_for_project` for every
requested project, before anything is compiled.  Any fatal error here
aborts the whole run. -/
def planProjects (tree : SourceTree) :
    List (String × List String) →
    Except BuildError (List (String × List String))
  | [] => .ok []
  | (name, rootLines) :: rest =>
    match sources_for_project tree name rootLines with
    | .error e => .error e
    | .ok (sources, _) =>
      match planProjects tree rest with
      | .error e => .error e
      | .ok acc => .ok ((name, sources) :: acc)

/-- The `all_sources` list whose members the compile loop of `main`
iterates over: empty whenever planning failed, because a fatal error
terminates the process before any compiler invocation. -/
def compiledSources (tree : SourceTree)
    (projects : List (String × List String)) : List String :=
  match planProjects tree projects with
  | .error _ => []
  | .ok plans => unique (plans.flatMap Prod.snd)

/-- `needs_rebuild(src, obj)` with the filesystem abstracted to
modification times: `obj` is the object file's mtime when it exists;
`deps` are the mtimes of the dependency files that exist (the
`dep.exists()` filter is folded into the list).  Stale iff the object
is absent or some dependency is strictly newer. -/
def needs_rebuild (obj : Option Nat) (deps : List Nat) : Bool :=
  match obj with
  | none => true
  | some objMtime => deps.any (fun m => decide (objMtime < m))

/-- The dependency list `needs_rebuild` assembles for a translation
unit: its own source, its module's headers, the source-root `.build`
file when present, and the `.build` files on the path from the unit's
directory up to its module root. -/
def unitDeps (srcMtime : Nat) (headerMtimes : List Nat)
    (rootBuildMtime : Option Nat) (moduleBuildMtimes : List Nat) : List Nat :=
  srcMtime :: headerMtimes
    ++ (match rootBuildMtime with | some b => [b] | none => [])
    ++ moduleBuildMtimes

/-- The up-to-date check of `link_executable`: with the executable
present, its mtime is compared against the newest object (or against
itself when there are no objects); the link is skipped iff the
executable is at least as new.  `linkStale` is true exactly when the
code relinks. -/
def linkStale (exe : Option Nat) (objMtimes : List Nat) : Bool :=
  match exe with
  | none => true
  | some exeMtime =>
    let newest := if objMtimes = [] then exeMtime else objMtimes.foldl Nat.max 0
    decide (exeMtime < newest)

/-- The per-unit define-flag assembly of `main`: every unit gets
`-D` flags for its own directory's defines; the root unit additionally
gets the program-level defines appended afterwards (and only when that
list is nonempty does the append statement run). -/
def unitExtraFlags (isRoot : Bool)
    (moduleDefines programDefines : List String) : List String :=
  let base := moduleDefines.map (fun d => "-D" ++ d)
  if isRoot then
    if programDefines = [] then base
    else base ++ programDefines.map (fun d => "-D" ++ d)
  else base

/-- C1 (amended): a module directory other than the source root with
zero header files is a fatal missing-module-header error even without
an override file; only the source root directory with zero headers and
no override file resolves to `([], [])`. -/
theorem claim1_zero_headers :
    (∀ (name : String) (cs : List String),
        module_config_for_dir false ⟨name, [], none, cs⟩ =
          .error (.missingModuleHeader name (name ++ ".h"))) ∧
    (∀ (name : String) (cs : List String),
        module_config_for_dir true ⟨name, [], none, cs⟩ = .ok ([], [])) :=
  ⟨module_config_empty, fun _ _ => rfl⟩

/-- C1 counterexample: for the module directory `m` with zero headers
and no override file the resolver does not succeed with `([], [])` as
the claim states; it fails with the fatal missing-module-header
error. -/
theorem claim1_counterexample :
    module_config_for_dir false ⟨"m", [], none, []⟩ =
      .error (.missingModuleHeader "m" "m.h") := by
  decide

/-- C2 (amended): in either mode the parser accepts exactly the
commands `use` and `def` (case-insensitively); `define` is not
recognized — like every other unknown command it is a fatal error that
presents the recognized command set `["use", "def"]` to the user. -/
theorem claim2_commands :
    (∀ (source : String) (lineNo : Nat) (cmd params : String)
        (sections defines : List String),
        pyLower cmd ≠ "use" → pyLower cmd ≠ "def" →
        handleCommand source lineNo cmd params sections defines =
          .error (.unknownDirective source lineNo (pyLower cmd) knownCommands)) ∧
    knownCommands = ["use", "def"] ∧
    parseCommandLines ["//> Use: m"] "f.h" true = .ok (["m"], []) ∧
    parseCommandLines ["//> DEF: X"] "f.h" true = .ok ([], ["X"]) ∧
    parseCommandLines ["//> define: X"] "f.h" true =
      .error (.unknownDirective "f.h" 1 "define" ["use", "def"]) ∧
    parseCommandLines ["define: X"] ".build" false =
      .error (.unknownDirective ".build" 1 "define" ["use", "def"]) := by
  refine ⟨?_, rfl, by decide, by decide, by decide, by decide⟩
  intro source lineNo cmd params sections defines h1 h2
  simp [handleCommand, h1, h2]

theorem claim2_witness :
    handleCommand "f.h" 1 "define" "X" [] [] =
      .error (.unknownDirective "f.h" 1 (pyLower "define") knownCommands) :=
  claim2_commands.1 "f.h" 1 "define" "X" [] [] (by decide) (by decide)

/-- C2 counterexample: the command `define` is not parsed as a define
directive; the line `//> define: X` is rejected as an unknown
directive whose error presents the recognized set `["use", "def"]`. -/
theorem claim2_counterexample :
    parseCommandLines ["//> define: X"] "hdr.h" true =
      .error (.unknownDirective "hdr.h" 1 "define" ["use", "def"]) := by
  decide

/-- C3 (amended): a root unit's effective flags are its own directory's
define flags followed by the program-level define flags, concatenated
without cross-list deduplication (so a define present in both lists
appears twice); a non-root unit gets exactly its own directory's
define flags. -/
theorem claim3_define_flags :
    (∀ (moduleDefines programDefines : List String),
        unitExtraFlags true moduleDefines programDefines =
          moduleDefines.map (fun d => "-D" ++ d)
            ++ programDefines.map (fun d => "-D" ++ d)) ∧
    (∀ (moduleDefines programDefines : List String),
        unitExtraFlags false moduleDefines programDefines =
          moduleDefines.map (fun d => "-D" ++ d)) := by
  constructor
  · intro md pd
    by_cases h : pd = []
    · subst h; simp [unitExtraFlags]
    · simp [unitExtraFlags, h]
  · intro md pd
    simp [unitExtraFlags]

/-- C3 counterexample: with `FOO` defined both at module level (via a
source-root `.build` file) and at program level (via a `//> def:`
directive in the root unit), the combined flag list of the root unit
contains `-DFOO` twice, contradicting the claimed absence of
duplicates. -/
theorem claim3_counterexample :
    unitExtraFlags true ["FOO"] ["FOO"] = ["-DFOO", "-DFOO"] ∧
    ¬ (unitExtraFlags true ["FOO"] ["FOO"]).Nodup ∧
    module_config_for_dir true ⟨"src", [], some ["def: FOO"], []⟩ =
      .ok ([], ["FOO"]) ∧
    parseCommandLines ["//> def: FOO"] "app.c" true = .ok ([], ["FOO"]) :=
  ⟨by decide, by decide, by decide, by decide⟩

/-- C4 (amended): a module directory (other than the source root) is a
fatal configuration error naming all found headers exactly when the
canonical header `<name>.h` is absent and at least one other header is
present; when the canonical header exists, any number of additional
headers is accepted silently. -/
theorem claim4_headers :
    (∀ (name : String) (headers : List (String × List String))
        (buildFile : Option (List String)) (cs : List String),
        (name ++ ".h") ∉ headers.map Prod.fst → headers ≠ [] →
        module_header_for_dir false ⟨name, headers, buildFile, cs⟩ =
          .error (.invalidModuleHeader name (name ++ ".h")
            (headers.map Prod.fst))) ∧
    (∀ (name : String) (headers : List (String × List String))
        (buildFile : Option (List String)) (cs : List String),
        (name ++ ".h") ∈ headers.map Prod.fst →
        ∃ h, module_header_for_dir false ⟨name, headers, buildFile, cs⟩ =
          .ok (some h) ∧ h.1 = name ++ ".h") := by
  constructor
  · intro name headers buildFile cs hnot hne
    have hfind : headers.find? (fun h => h.1 == (name ++ ".h")) = none := by
      rw [List.find?_eq_none]
      intro x hx
      simp only [beq_iff_eq]
      intro hxe
      exact hnot (by rw [← hxe]; exact List.mem_map_of_mem Prod.fst hx)
    simp [module_header_for_dir, hfind, hne]
  · intro name headers buildFile cs hmem
    cases hf : headers.find? (fun h => h.1 == (name ++ ".h")) with
    | none =>
      exfalso
      rw [List.find?_eq_none] at hf
      obtain ⟨a, ha, hae⟩ := List.mem_map.mp hmem
      exact hf a ha (by simp [hae])
    | some h =>
      refine ⟨h, ?_, ?_⟩
      · simp [module_header_for_dir, hf]
      · have hp := List.find?_some hf
        simpa using hp

theorem claim4_witness :
    module_header_for_dir false ⟨"m", [("a.h", []), ("b.h", [])], none, []⟩ =
      .error (.invalidModuleHeader "m" "m.h"
        ([("a.h", ([] : List String)), ("b.h", [])].map Prod.fst)) :=
  claim4_headers.1 "m" [("a.h", []), ("b.h", [])] none [] (by decide) (by decide)

/-- C4 counterexample: the directory `m` contains two header files,
`m.h` and `x.h`, yet the resolver succeeds (returning the canonical
`m.h`) instead of failing with a fatal error naming all headers as the
claim states. -/
theorem claim4_counterexample :
    module_header_for_dir false ⟨"m", [("m.h", []), ("x.h", [])], none, []⟩ =
      .ok (some ("m.h", [])) ∧
    (ModuleDir.mk "m" [("m.h", []), ("x.h", [])] none []).headers.length = 2 :=
  ⟨by decide, by decide⟩

/-- C5: for any duplicate-free starting module list, a successful
expansion terminates (the function is total by construction, with the
measure bounded by the directories on disk) and returns each
transitively reachable module exactly once — the result is
duplicate-free, contains every reachable module, and contains nothing
else — and on the two-module cycle `A -> B -> A` started from `[A]`
the breadth-first discovery order gives exactly `["A", "B"]`. -/
theorem claim5_expansion :
    (∀ (tree : SourceTree) (sections result : List String),
        sections.Nodup →
        expand_sections tree sections = .ok result →
        result.Nodup ∧
          (∀ x, Reaches tree sections x → x ∈ result) ∧
          (∀ x ∈ result, Reaches tree sections x)) ∧
    expand_sections cycleTree ["A"] = .ok ["A", "B"] := by
  constructor
  · intro tree sections result hnd heq
    have main := expandAux_invariant tree sections
      ((depUniverse tree \ sections.toFinset).card + sections.length)
      sections sections sections result le_rfl (fun _ => Iff.rfl) hnd
      (fun _ hx => hx) (fun _ hx => hx)
      (fun x hx hnx _ _ _ _ => absurd hx hnx)
      (fun x hx => ⟨x, hx, Relation.ReflTransGen.refl⟩) heq
    obtain ⟨hnodup, hroots, hclosed, hsound⟩ := main
    refine ⟨hnodup, ?_, hsound⟩
    rintro x ⟨r, hr, path⟩
    induction path with
    | refl => exact hroots r hr
    | tail _ e ihp =>
      obtain ⟨ds, hds, hc⟩ := e
      exact hclosed _ ihp ds hds _ hc
  · exact expand_cycle

theorem claim5_witness :
    (["A", "B"] : List String).Nodup ∧ "B" ∈ (["A", "B"] : List String) := by
  have h := claim5_expansion.1 cycleTree ["A"] ["A", "B"] (by decide)
    claim5_expansion.2
  refine ⟨h.1, h.2.1 "B" ?_⟩
  exact ⟨"A", by decide, Relation.ReflTransGen.single
    ⟨["B"], by decide, by decide⟩⟩

/-- C6: deduplication is order-preserving in both token kinds: the use
tokens `X, Y, X` (with `X` and `Y` distinct valid tokens) produce
exactly `[X, Y]`, the define tokens `D, E, D` produce exactly
`[D, E]`, and the concrete directive lines behave accordingly. -/
theorem claim6_dedup :
    (∀ (source : String) (lineNo : Nat) (x y : String), x ≠ y →
        x.toList.contains '=' = false → y.toList.contains '=' = false →
        handleUseTokens source lineNo [x, y, x] [] = .ok [x, y]) ∧
    (∀ (source : String) (lineNo : Nat) (d e : String), d ≠ e →
        invalidDefineToken d = false → invalidDefineToken e = false →
        handleDefTokens source lineNo [d, e, d] [] = .ok [d, e]) ∧
    parseCommandLines ["//> use: X Y X"] "f.h" true = .ok (["X", "Y"], []) ∧
    parseCommandLines ["//> def: A B A"] "f.h" true = .ok ([], ["A", "B"]) := by
  refine ⟨?_, ?_, by decide, by decide⟩
  · intro source lineNo x y hxy hx hy
    have hx' : '=' ∉ x.data := by simpa using hx
    have hy' : '=' ∉ y.data := by simpa using hy
    simp [handleUseTokens, addUnique, hx', hy', Ne.symm hxy]
  · intro source lineNo d e hde hd he
    simp [handleDefTokens, addUnique, hd, he, Ne.symm hde]

theorem claim6_witness :
    handleUseTokens "f.h" 1 ["X", "Y", "X"] [] = .ok ["X", "Y"] :=
  claim6_dedup.1 "f.h" 1 "X" "Y" (by decide) (by decide) (by decide)

/-- C7: staleness is a strict-timestamp comparison: a translation unit
whose object exists and is at least as new as every dependency (its
source, its module's headers, the applicable `.build` files) is not
rebuilt, while a strictly newer source forces a rebuild; a linked
executable is stale exactly when it is absent or strictly older than
the newest of its constituent object files. -/
theorem claim7_staleness :
    (∀ (t srcM : Nat) (hs : List Nat) (rb : Option Nat) (mbs : List Nat),
        srcM ≤ t → (∀ h ∈ hs, h ≤ t) → (∀ b, rb = some b → b ≤ t) →
        (∀ b ∈ mbs, b ≤ t) →
        needs_rebuild (some t) (unitDeps srcM hs rb mbs) = false) ∧
    (∀ (t srcM : Nat) (hs : List Nat) (rb : Option Nat) (mbs : List Nat),
        t < srcM →
        needs_rebuild (some t) (unitDeps srcM hs rb mbs) = true) ∧
    (∀ (exe : Option Nat) (objs : List Nat),
        linkStale exe objs = true ↔
          exe = none ∨ ∃ e, exe = some e ∧ ∃ o ∈ objs, e < o) ∧
    (∀ (e : Nat) (objs : List Nat), objs ≠ [] →
        (linkStale (some e) objs = true ↔ e < objs.foldl Nat.max 0)) := by
  refine ⟨?_, ?_, ?_, ?_⟩
  · intro t srcM hs rb mbs h1 h2 h3 h4
    simp only [needs_rebuild]
    rw [Bool.eq_false_iff]
    intro hany
    rw [List.any_eq_true] at hany
    obtain ⟨m, hm, hlt⟩ := hany
    rw [decide_eq_true_iff] at hlt
    unfold unitDeps at hm
    rcases List.mem_cons.mp hm with h | h
    · subst h; omega
    · rcases List.mem_append.mp h with h | h
      · rcases List.mem_append.mp h with h | h
        · have := h2 m h; omega
        · cases rb with
          | none => simp at h
          | some b =>
            simp only [List.mem_singleton] at h
            subst h
            have := h3 m rfl
            omega
      · have := h4 m h; omega
  · intro t srcM hs rb mbs h
    simp only [needs_rebuild]
    rw [List.any_eq_true]
    exact ⟨srcM, by simp [unitDeps], by simp [h]⟩
  · intro exe objs
    cases exe with
    | none => simp [linkStale]
    | some e =>
      by_cases hobj : objs = []
      · subst hobj
        simp [linkStale]
      · simp [linkStale, hobj, lt_foldl_max]
  · intro e objs h
    simp [linkStale, h]

theorem claim7_witness :
    needs_rebuild (some 5) (unitDeps 3 [2] (some 1) [0]) = false ∧
    needs_rebuild (some 1) (unitDeps 2 [] none []) = true ∧
    linkStale (some 1) [2] = true := by
  refine ⟨?_, ?_, ?_⟩
  · exact claim7_staleness.1 5 3 [2] (some 1) [0] (by decide) (by decide)
      (by intro b hb; injection hb with h; omega) (by decide)
  · exact claim7_staleness.2.1 1 2 [] none [] (by decide)
  · exact (claim7_staleness.2.2.1 (some 1) [2]).mpr
      (Or.inr ⟨1, rfl, 2, by decide, by decide⟩)

/-- C8: a `use` token containing `=` anywhere is a fatal error naming
the offending token (the first such token after any clean ones), and
in the whole pipeline the run aborts during planning, so no
compilation occurs. -/
theorem claim8_use_eq :
    (∀ (source : String) (lineNo : Nat) (pre : List String) (t : String)
        (post sections : List String),
        (∀ u ∈ pre, u.toList.contains '=' = false) →
        t.toList.contains '=' = true →
        handleUseTokens source lineNo (pre ++ t :: post) sections =
          .error (.invalidModuleName source lineNo t)) ∧
    parseCommandLines ["//> use: a=b"] "app.c" true =
      .error (.invalidModuleName "app.c" 1 "a=b") ∧
    sources_for_project [] "app" ["//> use: a=b"] =
      .error (.invalidModuleName "app.c" 1 "a=b") ∧
    compiledSources [] [("app", ["//> use: a=b"])] = [] := by
  refine ⟨?_, by decide, by decide, by decide⟩
  intro source lineNo pre
  induction pre with
  | nil =>
    intro t post sections _ ht
    have ht' : '=' ∈ t.data := by simpa using ht
    simp [handleUseTokens, ht']
  | cons u us ih =>
    intro t post sections hpre ht
    have hu : u.toList.contains '=' = false := hpre u (by simp)
    simp only [List.cons_append, handleUseTokens, hu]
    simp only [Bool.false_eq_true, if_false]
    exact ih t post (addUnique sections u)
      (fun v hv => hpre v (List.mem_cons_of_mem u hv)) ht

theorem claim8_witness :
    handleUseTokens "hdr.h" 1 ["a=b"] [] =
      .error (.invalidModuleName "hdr.h" 1 "a=b") :=
  claim8_use_eq.1 "hdr.h" 1 [] "a=b" [] [] (by intro u hu; simp at hu)
    (by decide)

/-- C9: a program depending on a module whose directory does not exist
makes the run terminate with a fatal error during planning — before
any compiler invocation (the compile list stays empty) — and in the
concrete `use missing` scenario the error names the expected path
`missing/missing.h`. -/
theorem claim9_missing_module :
    (∀ (tree : SourceTree) (sections : List String) (m : String),
        m ∈ sections → tree.find? (fun e => e.1 == m) = none →
        ∃ e, expand_sections tree sections = .error e) ∧
    (∀ (tree : SourceTree) (project : String)
        (rootLines sections defines : List String) (m : String),
        parseCommandLines rootLines (project ++ ".c") true =
          .ok (sections, defines) →
        m ∈ sections → tree.find? (fun e => e.1 == m) = none →
        ∃ e, sources_for_project tree project rootLines = .error e) ∧
    planProjects [] [("app", ["//> use: missing"])] =
      .error (.missingModuleHeader "missing" "missing.h") ∧
    compiledSources [] [("app", ["//> use: missing"])] = [] := by
  have hconc : sources_for_project [] "app" ["//> use: missing"] =
      .error (.missingModuleHeader "missing" "missing.h") := by
    have hdep : moduleDeps [] "missing" =
        .error (.missingModuleHeader "missing" "missing.h") := by decide
    have hexp : expand_sections [] ["missing"] =
        .error (.missingModuleHeader "missing" "missing.h") :=
      expandAux_cons_err [] [] ["missing"] ["missing"] hdep
    have hparse : parseCommandLines ["//> use: missing"] ("app" ++ ".c") true =
        .ok (["missing"], []) := by decide
    unfold sources_for_project
    simp only [hparse, hexp]
  refine ⟨?_, ?_, ?_, ?_⟩
  · intro tree sections m hm hfind
    exact expandAux_missing tree
      ((depUniverse tree \ sections.toFinset).card + sections.length)
      sections sections sections m le_rfl hm hfind
  · intro tree project rootLines sections defines m hparse hm hfind
    obtain ⟨e, he⟩ := expandAux_missing tree
      ((depUniverse tree \ sections.toFinset).card + sections.length)
      sections sections sections m le_rfl hm hfind
    have he' : expand_sections tree sections = .error e := he
    refine ⟨e, ?_⟩
    unfold sources_for_project
    simp only [hparse, he']
  · unfold planProjects
    simp only [hconc]
  · unfold compiledSources planProjects
    simp only [hconc]

theorem claim9_witness :
    ∃ e, expand_sections [] ["missing"] = .error e :=
  claim9_missing_module.1 [] ["missing"] "missing" (by decide) rfl

/-- C10: the source root is exempt from the canonical-header
requirement: header lookup always succeeds with no header there, a
rootless override-free source root resolves to `([], [])` regardless
of headers, and the source-root config depends only on the directory's
name and `.build` file — never on its headers. -/
theorem claim10_src_root :
    (∀ d : ModuleDir, module_header_for_dir true d = .ok none) ∧
    (∀ d : ModuleDir, d.buildFile = none →
        module_config_for_dir true d = .ok ([], [])) ∧
    (∀ d d' : ModuleDir, d.name = d'.name → d.buildFile = d'.buildFile →
        module_config_for_dir true d = module_config_for_dir true d') := by
  refine ⟨fun _ => rfl, ?_, ?_⟩
  · intro d h
    simp [module_config_for_dir, module_header_for_dir, withBuild, h]
  · intro d d' h1 h2
    simp [module_config_for_dir, module_header_for_dir, withBuild, h1, h2]

theorem claim10_witness :
    module_config_for_dir true ⟨"src", [("a.h", []), ("b.h", [])], none, []⟩ =
      .ok ([], []) :=
  claim10_src_root.2.1 ⟨"src", [("a.h", []), ("b.h", [])], none, []⟩ rfl

end Build
